import Mathlib

/-!
Shallow embedding of the workflow execution engine of this repository.

The authoritative sources are the TypeScript engine (`WorkflowEngine` in
`src/unnamed/part_010`, whose data shapes live in `src/src/types.ts`) and the
operator / expression library `src/src/operators.ts` that it calls.  The
repository also carries a second, older JavaScript engine
(`src/src/js/workflow-engine.js`, `src/src/js/operators.js`); where a claim's
behaviour differs between the two, the TypeScript engine is embedded, and the
divergence is recorded next to the theorem concerned.

Modelling conventions:
* JavaScript numbers are idealized as `JSNum`: NaN, the two infinities, and
  exact rationals for finite values.  The special-value behaviour
  (NaN/Infinity propagation, comparisons, truthiness) follows IEEE-754 /
  ECMAScript; finite arithmetic is exact where the source's is (integer and
  small decimal inputs).  Host-level facilities that are genuinely outside
  the program text (regular expressions, `JSON.stringify` rendering, `Date`
  calendar arithmetic, `Math.random`, decimal formatting of non-integers,
  irrational `sqrt`/`pow` results) are parameters of a `Host` structure
  rather than fabricated definitions; no verified property depends on their
  values.
* JavaScript dynamic values are the inductive `Value`; absent object
  properties read as `Value.undefined`, exactly like property reads in JS.
* Thrown exceptions are `Except.error` carrying the error message; a
  function that cannot throw is pure.
* The engine's unbounded recursion over the graph is given explicit fuel;
  `none` means the fuel ran out (the source would still be recursing).
-/

namespace WorkflowSpec

/-- Idealized JavaScript number: NaN, ±Infinity, or an exact rational. -/
inductive JSNum where
  | nan
  | inf
  | ninf
  | fin (q : ℚ)
deriving DecidableEq

/-- Dynamic JavaScript value as it can occur in a workflow graph and its
execution context.  Functions are not representable (graphs are plain JSON),
so the `typeof x === 'function'` branches of the source are constantly false
here.  `date` carries milliseconds since the epoch. -/
inductive Value where
  | undefined
  | null
  | bool (b : Bool)
  | num (n : JSNum)
  | str (s : String)
  | list (vs : List Value)
  | obj (fields : List (String × Value))
  | date (ms : Int)

/-- `true` exactly on `Value.undefined`; used to state absence decidably. -/
def Value.isUndefined : Value → Bool
  | .undefined => true
  | _ => false

/-- Host-level primitives the engine calls but that are not part of the
program text: the regex engine, `JSON.stringify` rendering, the `Date`
calendar (local-timezone getters included), `Math.random`'s sample, and the
decimal formatting / irrational corners of double arithmetic.  Every engine
definition is parametrized by a `Host`; no verified property depends on any
of these fields' values. -/
structure Host where
  /-- `Date.now()` at the moment a trigger fires. -/
  nowMs : Int
  /-- the value `Math.random()` returns, in `[0,1)`. -/
  randomSample : ℚ
  /-- `Math.sqrt` on a nonnegative finite value (correctly rounded double,
  idealized as a rational). -/
  sqrtQ : ℚ → ℚ
  /-- `Math.pow` when the exponent is not an integer. -/
  powFrac : ℚ → ℚ → JSNum
  /-- decimal rendering of a finite non-integer double. -/
  fracToString : ℚ → String
  /-- `Date#toString` (local timezone). -/
  dateToString : Int → String
  /-- `Date#toLocaleString(format)`. -/
  localeString : Int → String → String
  /-- `Date#toISOString` of a valid date. -/
  isoString : Int → String
  /-- `new Date(value)`: `none` is an Invalid Date. -/
  parseDateMs : Value → Option Int
  /-- `d.setDate(d.getDate() + n)` in the local calendar; `none` when the
  result is an Invalid Date (`n` NaN or infinite). -/
  addDaysMs : Int → JSNum → Option Int
  /-- `Date#getDay` (local timezone). -/
  getDayMs : Int → Int
  /-- `Date#getMonth`, 0-based (local timezone). -/
  getMonthMs : Int → Int
  /-- `Date#getFullYear` (local timezone). -/
  getYearMs : Int → Int
  /-- `Date#getHours` (local timezone). -/
  getHourMs : Int → Int
  /-- `Date#getMinutes` (local timezone). -/
  getMinuteMs : Int → Int
  /-- `new RegExp(pattern).test(s)`; `Except.error` is a malformed pattern. -/
  regexTest : String → String → Except String Bool
  /-- `JSON.stringify`, as interpolated into log messages. -/
  stringifyJSON : Value → String

/-- The variable / result bags of the execution context, with JavaScript
property-read semantics: reading an absent key yields `undefined`. -/
def VarMap : Type := String → Value

/-- A fresh, empty object. -/
def VarMap.empty : VarMap := fun _ => Value.undefined

/-- Property assignment `m[k] = v`. -/
def VarMap.set (m : VarMap) (k : String) (v : Value) : VarMap :=
  fun x => if x = k then v else m x

/-- JavaScript truthiness (`Boolean(v)` / `if (v)`). -/
def truthy : Value → Bool
  | .undefined => false
  | .null => false
  | .bool b => b
  | .num .nan => false
  | .num (.fin q) => decide (q ≠ 0)
  | .num _ => true
  | .str s => !s.toList.isEmpty
  | .list _ => true
  | .obj _ => true
  | .date _ => true

/-- Strict equality `===` on numbers: `NaN === NaN` is false. -/
def JSNum.strictEq : JSNum → JSNum → Bool
  | .nan, _ => false
  | _, .nan => false
  | .inf, .inf => true
  | .ninf, .ninf => true
  | .fin a, .fin b => a == b
  | _, _ => false

/-- Strict equality `===`.  Objects, arrays and dates compare by reference
in JavaScript; two such values reaching a comparison here come from distinct
evaluations and compare unequal — no verified property compares two
reference values. -/
def strictEq : Value → Value → Bool
  | .undefined, .undefined => true
  | .null, .null => true
  | .bool a, .bool b => a == b
  | .num a, .num b => a.strictEq b
  | .str a, .str b => a == b
  | _, _ => false

/-- Comparison `>` on numbers: any comparison with NaN is false. -/
def JSNum.gt : JSNum → JSNum → Bool
  | .nan, _ => false
  | _, .nan => false
  | .inf, .inf => false
  | .inf, _ => true
  | _, .inf => false
  | .ninf, _ => false
  | _, .ninf => true
  | .fin a, .fin b => decide (b < a)

/-- Comparison `<` on numbers. -/
def JSNum.lt (a b : JSNum) : Bool := JSNum.gt b a

/-- Comparison `>=` on numbers: false whenever either side is NaN. -/
def JSNum.ge : JSNum → JSNum → Bool
  | .nan, _ => false
  | _, .nan => false
  | .inf, _ => true
  | _, .inf => false
  | _, .ninf => true
  | .ninf, _ => false
  | .fin a, .fin b => decide (b ≤ a)

/-- Comparison `<=` on numbers. -/
def JSNum.le (a b : JSNum) : Bool := JSNum.ge b a

/-- Digit-list to natural number in a given base. -/
def digitsToNat (base : Nat) (ds : List Nat) : Nat :=
  ds.foldl (fun acc d => acc * base + d) 0

/-- Hexadecimal digit value. -/
def hexDigit? (c : Char) : Option Nat :=
  if c.isDigit then some (c.toNat - 48)
  else if 'a' ≤ c ∧ c ≤ 'f' then some (c.toNat - 87)
  else if 'A' ≤ c ∧ c ≤ 'F' then some (c.toNat - 55)
  else none

/-- Parse an unsigned decimal literal `digits [. digits] [e|E [sign] digits]`
from a character list; `none` when the shape is not a number.  At least one
digit must be present on one side of the point, matching ECMAScript. -/
def parseUnsignedDec (cs : List Char) : Option ℚ :=
  let intPart := cs.takeWhile Char.isDigit
  let rest₁ := cs.dropWhile Char.isDigit
  let fracPair : Option (List Char × List Char) :=
    match rest₁ with
    | '.' :: t => some (t.takeWhile Char.isDigit, t.dropWhile Char.isDigit)
    | _ => some ([], rest₁)
  match fracPair with
  | none => none
  | some (fracPart, rest₂) =>
    if intPart.isEmpty ∧ fracPart.isEmpty then none
    else
      let mantissa : ℚ :=
        (digitsToNat 10 (intPart.map (fun c => c.toNat - 48)) : ℚ) +
          (digitsToNat 10 (fracPart.map (fun c => c.toNat - 48)) : ℚ) /
            ((10 : ℚ) ^ fracPart.length)
      match rest₂ with
      | [] => some mantissa
      | e :: t =>
        if e = 'e' ∨ e = 'E' then
          let (sign, t₂) : Int × List Char :=
            match t with
            | '+' :: t₂ => (1, t₂)
            | '-' :: t₂ => (-1, t₂)
            | _ => (1, t)
          let expDigits := t₂.takeWhile Char.isDigit
          if expDigits.isEmpty ∨ ¬(t₂.dropWhile Char.isDigit).isEmpty then none
          else
            let e : Int := sign * (digitsToNat 10 (expDigits.map (fun c => c.toNat - 48)) : Int)
            some (mantissa * (10 : ℚ) ^ e)
        else none

/-- Strip leading and trailing whitespace from a character list
(`String.prototype.trim` and the trimming done by `Number(string)`). -/
def trimChars (cs : List Char) : List Char :=
  ((cs.dropWhile Char.isWhitespace).reverse.dropWhile Char.isWhitespace).reverse

/-- The ECMAScript `Number(string)` coercion, restricted to the literal
shapes a workflow graph uses: whitespace trimming, the empty string as 0,
signed decimal literals with optional fraction and exponent, `Infinity`,
and hexadecimal `0x…` literals.  (Binary `0b…` and octal `0o…` literals are
accepted by JS as well but appear nowhere in this repository; they parse as
NaN here.) -/
def parseJSNumber (s : String) : JSNum :=
  let cs := trimChars s.toList
  if cs.isEmpty then .fin 0
  else if cs = "Infinity".toList ∨ cs = "+Infinity".toList then .inf
  else if cs = "-Infinity".toList then .ninf
  else
    let (neg, body) : Bool × List Char :=
      match cs with
      | '-' :: rest => (true, rest)
      | '+' :: rest => (false, rest)
      | _ => (false, cs)
    match body with
    | '0' :: 'x' :: hs =>
      if neg ∨ hs.isEmpty then .nan
      else
        match hs.mapM hexDigit? with
        | some ds => .fin (digitsToNat 16 ds : ℚ)
        | none => .nan
    | '0' :: 'X' :: hs =>
      if neg ∨ hs.isEmpty then .nan
      else
        match hs.mapM hexDigit? with
        | some ds => .fin (digitsToNat 16 ds : ℚ)
        | none => .nan
    | _ =>
      match parseUnsignedDec body with
      | some q => .fin (if neg then -q else q)
      | none => .nan

/-- `String(n)` for a number: integers print without a decimal point; the
decimal rendering of a non-integer double is host formatting. -/
def numToString (H : Host) : JSNum → String
  | .nan => "NaN"
  | .inf => "Infinity"
  | .ninf => "-Infinity"
  | .fin q => if q.den = 1 then toString q.num else H.fracToString q

mutual

/-- The ECMAScript `String(v)` coercion.  An array stringifies as its
elements joined by commas with `null`/`undefined` elements blank
(`Array.prototype.toString`); a plain object is `"[object Object]"`. -/
def jsToString (H : Host) : Value → String
  | .undefined => "undefined"
  | .null => "null"
  | .bool true => "true"
  | .bool false => "false"
  | .num n => numToString H n
  | .str s => s
  | .list vs => String.intercalate "," (jsToStringElems H vs)
  | .obj _ => "[object Object]"
  | .date ms => H.dateToString ms

/-- Element rendering for `Array.prototype.toString`. -/
def jsToStringElems (H : Host) : List Value → List String
  | [] => []
  | .undefined :: t => "" :: jsToStringElems H t
  | .null :: t => "" :: jsToStringElems H t
  | v :: t => jsToString H v :: jsToStringElems H t

end

/-- The ECMAScript `Number(v)` coercion.  An array coerces through its
string rendering (`Number([5]) = 5`, `Number([1,2]) = NaN`); plain objects
are NaN; a `Date` coerces to its millisecond value. -/
def toNumber (H : Host) : Value → JSNum
  | .undefined => .nan
  | .null => .fin 0
  | .bool true => .fin 1
  | .bool false => .fin 0
  | .num n => n
  | .str s => parseJSNumber s
  | .list vs => parseJSNumber (jsToString H (.list vs))
  | .obj _ => .nan
  | .date ms => .fin (ms : ℚ)

/-- Does `needle` occur at the head of `hay`? -/
def listStarts (hay needle : List Char) : Bool :=
  match hay, needle with
  | _, [] => true
  | [], _ :: _ => false
  | h :: hs, n :: ns => h == n && listStarts hs ns

/-- `String.prototype.includes`: does `needle` occur anywhere in `hay`?
The empty needle is always found, as in JavaScript. -/
def listHas (hay needle : List Char) : Bool :=
  match hay with
  | [] => needle.isEmpty
  | _ :: t => listStarts hay needle || listHas t needle

/-- `String.prototype.includes` on strings. -/
def stringIncludes (hay needle : String) : Bool :=
  listHas hay.toList needle.toList

/-- `String.prototype.indexOf`: index of the first occurrence of `needle`
in `hay` starting from `i`, or `-1`. -/
def indexOfSub (needle : List Char) : List Char → Int → Int
  | [], i => if listStarts [] needle then i else -1
  | c :: t, i => if listStarts (c :: t) needle then i else indexOfSub needle t (i + 1)

/-- `String.prototype.startsWith` (prefix test). -/
def strStarts (s p : String) : Bool := listStarts s.toList p.toList

/-- `String.prototype.endsWith` (suffix test). -/
def strEnds (s p : String) : Bool := listStarts s.toList.reverse p.toList.reverse

/-- `String.prototype.substring(n)` — drop the first `n` characters. -/
def strDrop (s : String) (n : Nat) : String := String.mk (s.toList.drop n)

/-- Split a character list on a nonempty separator `s0 :: srest`
(`String.prototype.split` with a nonempty string separator). -/
def splitOnL (s0 : Char) (srest : List Char) : List Char → List (List Char)
  | [] => [[]]
  | c :: t =>
    if listStarts (c :: t) (s0 :: srest) then
      [] :: splitOnL s0 srest (t.drop srest.length)
    else
      match splitOnL s0 srest t with
      | [] => [[c]]
      | h :: rest => (c :: h) :: rest
termination_by l => l.length
decreasing_by
  · simp [List.length_drop]
    omega
  · simp

/-! ## `src/src/operators.ts` — variable resolution and condition evaluation -/

/-- `resolveValue` (`operators.ts`): a string operand beginning with `$` is
looked up (without the `$`) in the context; the lookup result is used only
when it is not `undefined`, otherwise the literal string itself is returned.
Every other operand passes through unchanged. -/
def resolveValue (value : Value) (context : VarMap) : Value :=
  match value with
  | .str s =>
    if strStarts s "$" then
      let varName := strDrop s 1
      match context varName with
      | .undefined => .str s
      | w => w
    else .str s
  | v => v

/-- A condition (`types.ts`): `leftOperand` and `rightOperand` are typed
`string | number | boolean` at the TypeScript level; the runtime applies
`resolveValue` to whatever is there, so they are modelled as `Value`.
The comparison operator is dispatched on as a string at runtime. -/
structure Condition where
  leftOperand : Value
  operator : String
  rightOperand : Value

/-- `evaluateCondition` (`operators.ts`): resolves both operands, then
compares.  `equals`/`notEquals` are strict (`===`/`!==`); the four ordering
operators coerce both sides with `Number`; `contains`/`startsWith`/`endsWith`
coerce with `String`; `matches` compiles the right operand as a regular
expression (which may throw).  An unknown operator name throws. -/
def evaluateCondition (H : Host) (condition : Condition) (context : VarMap) :
    Except String Bool :=
  let left := resolveValue condition.leftOperand context
  let right := resolveValue condition.rightOperand context
  match condition.operator with
  | "equals" => .ok (strictEq left right)
  | "notEquals" => .ok (!strictEq left right)
  | "greaterThan" => .ok ((toNumber H left).gt (toNumber H right))
  | "lessThan" => .ok ((toNumber H left).lt (toNumber H right))
  | "greaterOrEqual" => .ok ((toNumber H left).ge (toNumber H right))
  | "lessOrEqual" => .ok ((toNumber H left).le (toNumber H right))
  | "contains" => .ok (stringIncludes (jsToString H left) (jsToString H right))
  | "startsWith" => .ok (strStarts (jsToString H left) (jsToString H right))
  | "endsWith" => .ok (strEnds (jsToString H left) (jsToString H right))
  | "matches" => H.regexTest (jsToString H right) (jsToString H left)
  | op => .error ("Unknown comparison operator: " ++ op)

/-- Tag of a `BooleanExpression` (`types.ts`): the closed union
`'operator' | 'condition' | 'value'`. -/
inductive BEKind where
  | value
  | condition
  | operator
deriving DecidableEq

/-- A `BooleanExpression` (`types.ts`): a tag plus four optional fields.
The operator name is a string at runtime (the evaluator's `switch` has a
throwing default even though the TypeScript union is closed). -/
inductive BExpr where
  | mk (type : BEKind) (operator : Option String) (operands : Option (List BExpr))
      (condition : Option Condition) (value : Option Bool)

mutual

/-- `evaluateBooleanExpression` (`operators.ts`).  A `value` node returns
`Boolean(value)` (absent value → false); a `condition` node with a condition
delegates to `evaluateCondition`; an `operator` node with a truthy operator
string and an operands array evaluates all children eagerly left-to-right
and then combines (`AND` = all, `OR` = any, `NOT` = negation of the first
child with `!undefined = true` on no children, `XOR` = fold of `!==` over
the results, i.e. parity; anything else throws).  Every other shape —
missing condition, missing operands, empty-string operator — falls through
to `false`. -/
def evaluateBooleanExpression (H : Host) : BExpr → VarMap → Except String Bool
  | .mk .value _ _ _ v, _ => .ok (v.getD false)
  | .mk .condition _ _ (some c) _, context => evaluateCondition H c context
  | .mk .operator (some op) (some l) _ _, context =>
    if op.toList.isEmpty then .ok false
    else do
      let operandResults ← evalBEList H l context
      match op with
      | "AND" => .ok (operandResults.all id)
      | "OR" => .ok (operandResults.any id)
      | "NOT" => .ok (!operandResults.headD false)
      | "XOR" => .ok (operandResults.foldl (fun acc val => acc != val) false)
      | _ => .error ("Unknown boolean operator: " ++ op)
  | _, _ => .ok false

/-- `expression.operands.map(op => evaluateBooleanExpression(op, context))`:
eager left-to-right evaluation; a thrown error aborts the whole map. -/
def evalBEList (H : Host) : List BExpr → VarMap → Except String (List Bool)
  | [], _ => .ok []
  | e :: t, context => do
    let r ← evaluateBooleanExpression H e context
    let rs ← evalBEList H t context
    .ok (r :: rs)

end

/-- A literal boolean leaf. -/
def BExpr.lit (b : Bool) : BExpr := .mk .value none none none (some b)

/-- An operator node combining a list of children. -/
def BExpr.opNode (op : String) (l : List BExpr) : BExpr :=
  .mk .operator (some op) (some l) none none

/-! ## `src/src/operators.ts` — the operator library

IEEE-754 special-value arithmetic on `JSNum`.  The single rational zero
stands for `+0` (`-0` is not distinguished; no workflow in this repository
can produce a `-0` denominator). -/

/-- Numeric negation. -/
def JSNum.neg : JSNum → JSNum
  | .nan => .nan
  | .inf => .ninf
  | .ninf => .inf
  | .fin q => .fin (-q)

/-- IEEE addition. -/
def JSNum.add : JSNum → JSNum → JSNum
  | .nan, _ => .nan
  | _, .nan => .nan
  | .inf, .ninf => .nan
  | .ninf, .inf => .nan
  | .inf, _ => .inf
  | _, .inf => .inf
  | .ninf, _ => .ninf
  | _, .ninf => .ninf
  | .fin a, .fin b => .fin (a + b)

/-- IEEE subtraction. -/
def JSNum.sub (a b : JSNum) : JSNum := a.add b.neg

/-- IEEE multiplication. -/
def JSNum.mul : JSNum → JSNum → JSNum
  | .nan, _ => .nan
  | _, .nan => .nan
  | .inf, .inf => .inf
  | .inf, .ninf => .ninf
  | .ninf, .inf => .ninf
  | .ninf, .ninf => .inf
  | .inf, .fin b => if b = 0 then .nan else if 0 < b then .inf else .ninf
  | .fin a, .inf => if a = 0 then .nan else if 0 < a then .inf else .ninf
  | .ninf, .fin b => if b = 0 then .nan else if 0 < b then .ninf else .inf
  | .fin a, .ninf => if a = 0 then .nan else if 0 < a then .ninf else .inf
  | .fin a, .fin b => .fin (a * b)

/-- IEEE division: a nonzero finite value divided by zero is a signed
infinity, `0/0` is NaN, and nothing throws. -/
def JSNum.div : JSNum → JSNum → JSNum
  | .nan, _ => .nan
  | _, .nan => .nan
  | .inf, .inf => .nan
  | .inf, .ninf => .nan
  | .ninf, .inf => .nan
  | .ninf, .ninf => .nan
  | .inf, .fin b => if 0 ≤ b then .inf else .ninf
  | .ninf, .fin b => if 0 ≤ b then .ninf else .inf
  | .fin _, .inf => .fin 0
  | .fin _, .ninf => .fin 0
  | .fin a, .fin b =>
    if b = 0 then (if a = 0 then .nan else if 0 < a then .inf else .ninf)
    else .fin (a / b)

/-- Truncation toward zero. -/
def qTrunc (q : ℚ) : ℤ := if 0 ≤ q then ⌊q⌋ else ⌈q⌉

/-- The `%` remainder: sign of the dividend, NaN when the divisor is zero
or the dividend infinite. -/
def JSNum.mod : JSNum → JSNum → JSNum
  | .nan, _ => .nan
  | _, .nan => .nan
  | .inf, _ => .nan
  | .ninf, _ => .nan
  | .fin a, .inf => .fin a
  | .fin a, .ninf => .fin a
  | .fin a, .fin b =>
    if b = 0 then .nan else .fin (a - b * (qTrunc (a / b) : ℚ))

/-- `Math.pow`.  Integer exponents on finite bases are exact; a non-integer
exponent on a positive base is delegated to the host (the value is
irrational in general); a negative base with a non-integer exponent is NaN,
per ECMAScript. -/
def jsPow (H : Host) (a b : JSNum) : JSNum :=
  match b with
  | .nan => .nan
  | .inf =>
    match a with
    | .nan => .nan
    | .inf => .inf
    | .ninf => .inf
    | .fin x => if x = 1 ∨ x = -1 then .nan else if 1 < |x| then .inf else .fin 0
  | .ninf =>
    match a with
    | .nan => .nan
    | .inf => .fin 0
    | .ninf => .fin 0
    | .fin x => if x = 1 ∨ x = -1 then .nan else if 1 < |x| then .fin 0 else .inf
  | .fin e =>
    if e = 0 then .fin 1
    else
      match a with
      | .nan => .nan
      | .inf => if 0 < e then .inf else .fin 0
      | .ninf =>
        if 0 < e then (if e.den = 1 ∧ e.num % 2 ≠ 0 then .ninf else .inf)
        else .fin 0
      | .fin x =>
        if e.den = 1 then
          if x = 0 then (if 0 < e then .fin 0 else .inf)
          else .fin (x ^ e.num)
        else
          if x < 0 then .nan
          else if x = 0 then (if 0 < e then .fin 0 else .inf)
          else H.powFrac x e

/-- `Math.sqrt`: NaN on negatives, the host's correctly-rounded value on
nonnegative finite inputs. -/
def jsSqrt (H : Host) : JSNum → JSNum
  | .nan => .nan
  | .inf => .inf
  | .ninf => .nan
  | .fin q => if q < 0 then .nan else .fin (H.sqrtQ q)

/-- `Math.abs`. -/
def JSNum.abs : JSNum → JSNum
  | .nan => .nan
  | .inf => .inf
  | .ninf => .inf
  | .fin q => .fin |q|

/-- `Math.round` (half away from zero upward: `round(-2.5) = -2`). -/
def jsRound : JSNum → JSNum
  | .nan => .nan
  | .inf => .inf
  | .ninf => .ninf
  | .fin q => .fin ((⌊q + 1/2⌋ : ℤ) : ℚ)

/-- `Math.floor`. -/
def jsFloor : JSNum → JSNum
  | .nan => .nan
  | .inf => .inf
  | .ninf => .ninf
  | .fin q => .fin ((⌊q⌋ : ℤ) : ℚ)

/-- `Math.ceil`. -/
def jsCeil : JSNum → JSNum
  | .nan => .nan
  | .inf => .inf
  | .ninf => .ninf
  | .fin q => .fin ((⌈q⌉ : ℤ) : ℚ)

/-- Binary `Math.min` (NaN-propagating). -/
def JSNum.min2 : JSNum → JSNum → JSNum
  | .nan, _ => .nan
  | _, .nan => .nan
  | .ninf, _ => .ninf
  | _, .ninf => .ninf
  | .inf, b => b
  | a, .inf => a
  | .fin a, .fin b => .fin (min a b)

/-- Binary `Math.max` (NaN-propagating). -/
def JSNum.max2 : JSNum → JSNum → JSNum
  | .nan, _ => .nan
  | _, .nan => .nan
  | .inf, _ => .inf
  | _, .inf => .inf
  | .ninf, b => b
  | a, .ninf => a
  | .fin a, .fin b => .fin (max a b)

/-- `Math.min(...xs)`: the fold starts at `+Infinity` (`Math.min()` of no
arguments is `Infinity`). -/
def listMin (l : List JSNum) : JSNum := l.foldl JSNum.min2 .inf

/-- `Math.max(...xs)`: the fold starts at `-Infinity`. -/
def listMax (l : List JSNum) : JSNum := l.foldl JSNum.max2 .ninf

/-- `executeMathOperation` (`operators.ts`): destructures `a`, `b`, `value`,
`values` from the inputs object and dispatches.  Every known operation
produces a number (coercions with `Number` never throw); the only throwing
paths are an unknown operation name and, for `min`/`max`, a truthy
non-array `values` (whose `.map` call is a TypeError in JavaScript).
`random` uses the host's `Math.random` sample. -/
def executeMathOperation (H : Host) (operation : String) (inputs : VarMap) :
    Except String JSNum :=
  let a := inputs "a"
  let b := inputs "b"
  let value := inputs "value"
  let values := inputs "values"
  match operation with
  | "add" => .ok ((toNumber H a).add (toNumber H b))
  | "subtract" => .ok ((toNumber H a).sub (toNumber H b))
  | "multiply" => .ok ((toNumber H a).mul (toNumber H b))
  | "divide" => .ok ((toNumber H a).div (toNumber H b))
  | "modulo" => .ok ((toNumber H a).mod (toNumber H b))
  | "power" => .ok (jsPow H (toNumber H a) (toNumber H b))
  | "sqrt" => .ok (jsSqrt H (toNumber H value))
  | "abs" => .ok (toNumber H value).abs
  | "round" => .ok (jsRound (toNumber H value))
  | "floor" => .ok (jsFloor (toNumber H value))
  | "ceil" => .ok (jsCeil (toNumber H value))
  | "min" =>
    if truthy values then
      match values with
      | .list vs => .ok (listMin (vs.map (toNumber H)))
      | _ => .error "values.map is not a function"
    else .ok (listMin ([a, b].map (toNumber H)))
  | "max" =>
    if truthy values then
      match values with
      | .list vs => .ok (listMax (vs.map (toNumber H)))
      | _ => .error "values.map is not a function"
    else .ok (listMax ([a, b].map (toNumber H)))
  | "random" =>
    .ok (((JSNum.fin H.randomSample).mul ((toNumber H b).sub (toNumber H a))).add
      (toNumber H a))
  | op => .error ("Unknown math operation: " ++ op)

/-- `ToIntegerOrInfinity` clamped into `[0, len]` (used by `substring`):
NaN and negatives clamp to 0. -/
def toIntClamp (len : Nat) (n : JSNum) : Nat :=
  match n with
  | .nan => 0
  | .ninf => 0
  | .inf => len
  | .fin q => if q ≤ 0 then 0 else min len (qTrunc q).toNat

/-- A `slice`/`splice` start index: NaN → 0, negative counts from the end,
both ends clamped into `[0, len]`. -/
def jsSliceIdx (len : Nat) (n : JSNum) : Nat :=
  match n with
  | .nan => 0
  | .ninf => 0
  | .inf => len
  | .fin q =>
    if q < 0 then ((len : ℤ) + qTrunc q).toNat
    else min len (qTrunc q).toNat

/-- `String.prototype.substring` index semantics: clamp both arguments into
`[0, len]` and swap them when start exceeds end. -/
def jsSubstringL (cs : List Char) (st : JSNum) (en : Option JSNum) : List Char :=
  let len := cs.length
  let f := toIntClamp len st
  let t := match en with
    | none => len
    | some e => toIntClamp len e
  (cs.take (max f t)).drop (min f t)

/-- `slice` on any list: no swapping, so a start past the end is empty. -/
def listSlice {α : Type} (l : List α) (st : JSNum) (en : Option JSNum) : List α :=
  let len := l.length
  let t := match en with
    | none => len
    | some e => jsSliceIdx len e
  (l.take t).drop (jsSliceIdx len st)

/-- Replace the first occurrence of `needle` (found or not) — the
single-replacement behaviour of `String.prototype.replace` with a string
pattern.  `$`-substitution patterns in the replacement are not interpreted
(no workflow in this repository uses them). -/
def replaceFirstL (hay needle repl : List Char) : List Char :=
  if listStarts hay needle then repl ++ hay.drop needle.length
  else
    match hay with
    | [] => []
    | c :: t => c :: replaceFirstL t needle repl

/-- SameValueZero (used by `Array.prototype.includes`): like `===` but NaN
matches NaN. -/
def sameValueZero (a b : Value) : Bool :=
  match a, b with
  | .num .nan, .num .nan => true
  | x, y => strictEq x y

/-- `Array.prototype.indexOf` (strict equality, so NaN is never found). -/
def listIndexOfVal (v : Value) : List Value → Int → Int
  | [], _ => -1
  | h :: t, i => if strictEq h v then i else listIndexOfVal v t (i + 1)

/-- The default `Array.prototype.sort` order: `undefined` elements sort
last, everything else by its string rendering. -/
def sortLe (H : Host) (a b : Value) : Bool :=
  match a, b with
  | .undefined, .undefined => true
  | .undefined, _ => false
  | _, .undefined => true
  | x, y => decide (jsToString H x ≤ jsToString H y)

/-- Stable insertion of one element into a sorted list. -/
def insertLe (le : Value → Value → Bool) (v : Value) : List Value → List Value
  | [] => [v]
  | h :: t => if le h v then h :: insertLe le v t else v :: h :: t

/-- A stable sort — `Array.prototype.sort` is stable, and its element order
is fully determined by the comparison on string renderings. -/
def insertionSort (le : Value → Value → Bool) : List Value → List Value
  | [] => []
  | h :: t => insertLe le h (insertionSort le t)

/-- The JavaScript `+` operator (used by the `reduce` fallback): if either
side is a string after `ToPrimitive` (arrays, objects and dates convert to
strings), it concatenates, otherwise it adds numerically. -/
def jsPlus (H : Host) (a b : Value) : Value :=
  let prim : Value → Value := fun v =>
    match v with
    | .list _ => .str (jsToString H v)
    | .obj _ => .str (jsToString H v)
    | .date _ => .str (jsToString H v)
    | p => p
  match prim a, prim b with
  | .str x, pb => .str (x ++ jsToString H pb)
  | pa, .str y => .str (jsToString H pa ++ y)
  | pa, pb => .num ((toNumber H pa).add (toNumber H pb))

/-- `executeStringOperation` (`operators.ts`).  `str`, `str1`, `str2`,
`separator`, `start`, `end`, `searchValue`, `replaceValue`, `array` are
destructured from the inputs object; all string arguments pass through the
`String` coercion exactly where the source applies it.  Note the source's
`end ? … : undefined`: an `end` of 0 is falsy and means "to the end". -/
def executeStringOperation (H : Host) (operation : String) (inputs : VarMap) :
    Except String Value :=
  let str := inputs "str"
  let str1 := inputs "str1"
  let str2 := inputs "str2"
  let separator := inputs "separator"
  let start := inputs "start"
  let endV := inputs "end"
  let searchValue := inputs "searchValue"
  let replaceValue := inputs "replaceValue"
  let array := inputs "array"
  let endArg : Option JSNum := if truthy endV then some (toNumber H endV) else none
  match operation with
  | "concat" => .ok (.str (jsToString H str1 ++ jsToString H str2))
  | "substring" =>
    .ok (.str (String.mk (jsSubstringL (jsToString H str).toList (toNumber H start) endArg)))
  | "replace" =>
    .ok (.str (String.mk (replaceFirstL (jsToString H str).toList
      (jsToString H searchValue).toList (jsToString H replaceValue).toList)))
  | "split" =>
    let sep := if truthy separator then jsToString H separator else ""
    let parts :=
      match sep.toList with
      | [] => (jsToString H str).toList.map (fun c => String.mk [c])
      | c :: rest => (splitOnL c rest (jsToString H str).toList).map String.mk
    .ok (.list (parts.map .str))
  | "join" =>
    match array with
    | .list vs =>
      let sep := if truthy separator then jsToString H separator else ","
      .ok (.str (String.intercalate sep (jsToStringElems H vs)))
    | _ => .ok (.str "")
  | "toUpperCase" => .ok (.str (String.mk ((jsToString H str).toList.map Char.toUpper)))
  | "toLowerCase" => .ok (.str (String.mk ((jsToString H str).toList.map Char.toLower)))
  | "trim" => .ok (.str (String.mk (trimChars (jsToString H str).toList)))
  | "length" => .ok (.num (.fin ((jsToString H str).length : ℚ)))
  | "indexOf" =>
    .ok (.num (.fin ((indexOfSub (jsToString H searchValue).toList
      (jsToString H str).toList 0 : ℤ) : ℚ)))
  | "slice" =>
    .ok (.str (String.mk (listSlice (jsToString H str).toList (toNumber H start) endArg)))
  | op => .error ("Unknown string operation: " ++ op)

/-- `executeArrayOperation` (`operators.ts`).  A non-array `array` input
throws `"Input must be an array"` before any dispatch.  The source copies
the array first, so every operation is pure here.  `callback` and
`predicate` inputs can never be functions (graphs are JSON), so `filter`
falls back to removing `value`, `map` to the identity, `reduce` to `+`
accumulation, `find` to strict-equality search — exactly the source's
non-function branches. -/
def executeArrayOperation (H : Host) (operation : String) (inputs : VarMap) :
    Except String Value :=
  let value := inputs "value"
  let start := inputs "start"
  let endV := inputs "end"
  let deleteCount := inputs "deleteCount"
  let endArg : Option JSNum := if truthy endV then some (toNumber H endV) else none
  match inputs "array" with
  | .list arr =>
    match operation with
    | "push" => .ok (.list (arr ++ [value]))
    | "pop" => .ok (.list arr.dropLast)
    | "shift" => .ok (.list (arr.drop 1))
    | "unshift" => .ok (.list (value :: arr))
    | "slice" => .ok (.list (listSlice arr (toNumber H start) endArg))
    | "splice" =>
      let len := arr.length
      let f := jsSliceIdx len (toNumber H start)
      let dcNum := toNumber H (if truthy deleteCount then deleteCount else .num (.fin 0))
      let dc := toIntClamp (len - f) dcNum
      .ok (.list (arr.take f ++ value :: arr.drop (f + dc)))
    | "filter" => .ok (.list (arr.filter (fun item => !strictEq item value)))
    | "map" => .ok (.list arr)
    | "reduce" =>
      let init := if truthy value then value else .num (.fin 0)
      .ok (arr.foldl (fun acc item => jsPlus H acc item) init)
    | "find" =>
      match arr.find? (fun item => strictEq item value) with
      | some v => .ok v
      | none => .ok .undefined
    | "sort" => .ok (.list (insertionSort (sortLe H) arr))
    | "reverse" => .ok (.list arr.reverse)
    | "length" => .ok (.num (.fin (arr.length : ℚ)))
    | "includes" => .ok (.bool (arr.any (fun item => sameValueZero item value)))
    | "indexOf" => .ok (.num (.fin ((listIndexOfVal value arr 0 : ℤ) : ℚ)))
    | "join" =>
      let sep := if truthy value then jsToString H value else ","
      .ok (.str (String.intercalate sep (jsToStringElems H arr)))
    | op => .error ("Unknown array operation: " ++ op)
  | _ => .error "Input must be an array"

/-- `executeDateOperation` (`operators.ts`).  `d` is `new Date(date)` when
`date` is truthy, otherwise the current time; calendar arithmetic, local
timezone getters and formatting are host primitives.  `toISOString` on an
Invalid Date throws (`"Invalid time value"`), while the getters return NaN
and `toLocaleString` renders `"Invalid Date"`. -/
def executeDateOperation (H : Host) (operation : String) (inputs : VarMap) :
    Except String Value :=
  let date := inputs "date"
  let days := inputs "days"
  let format := inputs "format"
  let d : Option Int := if truthy date then H.parseDateMs date else some H.nowMs
  match operation with
  | "now" => .ok (.str (H.isoString H.nowMs))
  | "addDays" =>
    match d with
    | none => .error "Invalid time value"
    | some ms =>
      match H.addDaysMs ms (toNumber H days) with
      | none => .error "Invalid time value"
      | some ms₂ => .ok (.str (H.isoString ms₂))
  | "subtractDays" =>
    match d with
    | none => .error "Invalid time value"
    | some ms =>
      match H.addDaysMs ms (toNumber H days).neg with
      | none => .error "Invalid time value"
      | some ms₂ => .ok (.str (H.isoString ms₂))
  | "format" =>
    let loc := if truthy format then jsToString H format else "en-US"
    match d with
    | none => .ok (.str "Invalid Date")
    | some ms => .ok (.str (H.localeString ms loc))
  | "parse" =>
    match H.parseDateMs date with
    | none => .error "Invalid time value"
    | some ms => .ok (.str (H.isoString ms))
  | "getDay" =>
    match d with
    | none => .ok (.num .nan)
    | some ms => .ok (.num (.fin (H.getDayMs ms : ℚ)))
  | "getMonth" =>
    match d with
    | none => .ok (.num .nan)
    | some ms => .ok (.num (.fin ((H.getMonthMs ms : ℚ) + 1)))
  | "getYear" =>
    match d with
    | none => .ok (.num .nan)
    | some ms => .ok (.num (.fin (H.getYearMs ms : ℚ)))
  | "getHour" =>
    match d with
    | none => .ok (.num .nan)
    | some ms => .ok (.num (.fin (H.getHourMs ms : ℚ)))
  | "getMinute" =>
    match d with
    | none => .ok (.num .nan)
    | some ms => .ok (.num (.fin (H.getMinuteMs ms : ℚ)))
  | "diff" =>
    match H.parseDateMs (inputs "date1"), H.parseDateMs (inputs "date2") with
    | some ms₁, some ms₂ =>
      .ok (.num (.fin (|((ms₂ : ℚ)) - ((ms₁ : ℚ))| / (1000 * 60 * 60 * 24))))
    | _, _ => .ok (.num .nan)
  | op => .error ("Unknown date operation: " ++ op)

/-- An `OperatorConfig` (`types.ts`): operation name, inputs object,
optional output variable name. -/
structure OperatorConfig where
  operation : String
  inputs : VarMap
  output : Option String

/-- The math category's operation names, in the order the source lists them. -/
def mathOpNames : List String :=
  ["add", "subtract", "multiply", "divide", "modulo", "power", "sqrt", "abs",
    "round", "floor", "ceil", "min", "max", "random"]

/-- The string category's operation names. -/
def stringOpNames : List String :=
  ["concat", "substring", "replace", "split", "join", "toUpperCase",
    "toLowerCase", "trim", "length", "indexOf", "slice"]

/-- The array category's operation names.  `slice`, `length`, `indexOf` and
`join` also occur in the string list, which is tested first, so those four
array operations are unreachable through `executeOperator`. -/
def arrayOpNames : List String :=
  ["push", "pop", "shift", "unshift", "slice", "splice", "filter", "map",
    "reduce", "find", "sort", "reverse", "length", "includes", "indexOf", "join"]

/-- The date category's operation names. -/
def dateOpNames : List String :=
  ["now", "addDays", "subtractDays", "format", "parse", "getDay", "getMonth",
    "getYear", "getHour", "getMinute", "diff"]

/-- `executeOperator` (`operators.ts`): resolves every input value against
the variable context, then routes the operation name through the category
lists in order math → string → array → date; a name in no list throws. -/
def executeOperator (H : Host) (config : OperatorConfig) (context : VarMap) :
    Except String Value :=
  let resolvedInputs : VarMap := fun k => resolveValue (config.inputs k) context
  let operation := config.operation
  if mathOpNames.contains operation then
    (executeMathOperation H operation resolvedInputs).map .num
  else if stringOpNames.contains operation then
    executeStringOperation H operation resolvedInputs
  else if arrayOpNames.contains operation then
    executeArrayOperation H operation resolvedInputs
  else if dateOpNames.contains operation then
    executeDateOperation H operation resolvedInputs
  else .error ("Unknown operation: " ++ operation)

/-! ## `src/unnamed/part_010` — the TypeScript `WorkflowEngine` -/

/-- Log severity. -/
inductive LogLevel where
  | info
  | warning
  | error
deriving DecidableEq

/-- One `onLog` invocation: node id, message, level, optional structured
data.  (The TypeScript engine's `log` method only forwards to the `onLog`
callback; `context.logs` itself is never appended to.) -/
structure LogEntry where
  nodeId : String
  message : String
  level : LogLevel
  data : Option Value

/-- The trigger node's `config` payload (`config?.variables`). -/
structure TriggerConfig where
  «variables» : Option (List (String × Value))

/-- An action node's `actionConfig` payload: the four optional properties
the engine reads (`message`, `name`, `value`, `transform`). -/
structure ActionConfig where
  message : Option Value
  name : Option Value
  value : Option Value
  transform : Option Value

/-- The `actionConfig` object as a value (for the default action's
`{ actionType, config: actionConfig }` result): its present fields. -/
def ActionConfig.toValue (c : ActionConfig) : Value :=
  .obj ((match c.message with
    | some m => [("message", m)]
    | none => []) ++
  (match c.name with
    | some n => [("name", n)]
    | none => []) ++
  (match c.value with
    | some v => [("value", v)]
    | none => []) ++
  (match c.transform with
    | some t => [("transform", t)]
    | none => []))

/-- `actionConfig?.field` — `undefined` when the config or field is absent. -/
def acGet (acfg : Option ActionConfig) (sel : ActionConfig → Option Value) : Value :=
  match acfg with
  | some c => (sel c).getD .undefined
  | none => .undefined

/-- `NodeData` (`types.ts`): the label plus the per-type optional payloads
the engine reads. -/
structure NodeData where
  label : String
  config : Option TriggerConfig
  operatorConfig : Option OperatorConfig
  booleanExpression : Option BExpr
  condition : Option Condition
  actionType : Option String
  actionConfig : Option ActionConfig

/-- A graph node: id, runtime type string, payload.  (The reactflow
`position` field is layout-only and read nowhere in the engine.) -/
structure Node where
  id : String
  type : String
  data : NodeData

/-- A labeled edge.  `label` is compared against the strings `"true"` and
`"false"`; an absent label matches neither. -/
structure Edge where
  id : String
  source : String
  target : String
  label : Option String

/-- The engine's run state: the `ExecutionContext` fields (`variables`,
`results`, `logs`) plus the stream of `onLog` callback invocations. -/
structure EngineState where
  «variables» : VarMap
  results : VarMap
  logs : List LogEntry
  emitted : List LogEntry

/-- The context as constructed by the engine's constructor. -/
def initialState : EngineState :=
  { «variables» := VarMap.empty, results := VarMap.empty, logs := [], emitted := [] }

/-- `this.log(nodeId, message, level, data)`: forwards to `onLog` — the
entry joins the emitted stream, and `context.logs` is left untouched,
exactly as in the source. -/
def logE (st : EngineState) (nodeId message : String) (level : LogLevel)
    (data : Option Value) : EngineState :=
  { st with emitted := st.emitted ++ [⟨nodeId, message, level, data⟩] }

/-- Rendering of a boolean into a template string. -/
def boolStr (b : Bool) : String := if b then "true" else "false"

/-- `executeTrigger`: merges `config.variables` (when present) into the
context variables in property order, and returns the
`{ triggered: true, timestamp: new Date() }` marker. -/
def executeTrigger (H : Host) (node : Node) (st : EngineState) : EngineState × Value :=
  let st :=
    match node.data.config with
    | some cfg =>
      match cfg.«variables» with
      | some vars =>
        { st with «variables» := vars.foldl (fun m kv => m.set kv.1 kv.2) st.«variables» }
      | none => st
    | none => st
  (st, .obj [("triggered", .bool true), ("timestamp", .date H.nowMs)])

/-- `executeAction`: logs the action type, then sub-dispatches.  `log`
writes to the developer console only (outside the log stream);uncovered
action types fall through to returning `{ actionType, config }`.  No branch
throws. -/
def executeAction (H : Host) (node : Node) (st : EngineState) : EngineState × Value :=
  let actionType := node.data.actionType
  let acfg := node.data.actionConfig
  let atStr := match actionType with
    | some s => s
    | none => "undefined"
  let st := logE st node.id ("Executing action: " ++ atStr) .info none
  match actionType with
  | some "log" =>
    (st, .obj [("logged", .bool true), ("message", acGet acfg (fun c => c.message))])
  | some "setVariable" =>
    let nameV := acGet acfg (fun c => c.name)
    let valueV := acGet acfg (fun c => c.value)
    let st := { st with «variables» := st.«variables».set (jsToString H nameV) valueV }
    (st, .obj [("set", .bool true), ("name", nameV), ("value", valueV)])
  | some "transform" =>
    let tv := acGet acfg (fun c => c.transform)
    (st, if truthy tv then tv else .null)
  | _ =>
    (st, .obj [("actionType", match actionType with
        | some s => .str s
        | none => .undefined),
      ("config", match acfg with
        | some c => c.toValue
        | none => .undefined)])

/-- `executeCondition` (engine method): a missing condition logs a warning
and yields `false`; otherwise delegate to `evaluateCondition` (whose throw
propagates) and log the result. -/
def executeConditionNode (H : Host) (node : Node) (st : EngineState) :
    EngineState × Except String Bool :=
  match node.data.condition with
  | none => (logE st node.id "No condition configured" .warning none, .ok false)
  | some c =>
    match evaluateCondition H c st.«variables» with
    | .error e => (st, .error e)
    | .ok r => (logE st node.id ("Condition evaluated to: " ++ boolStr r) .info none, .ok r)

/-- `executeBoolean` (engine method): as for conditions, with the boolean
expression tree. -/
def executeBooleanNode (H : Host) (node : Node) (st : EngineState) :
    EngineState × Except String Bool :=
  match node.data.booleanExpression with
  | none => (logE st node.id "No boolean expression configured" .warning none, .ok false)
  | some be =>
    match evaluateBooleanExpression H be st.«variables» with
    | .error e => (st, .error e)
    | .ok r =>
      (logE st node.id ("Boolean expression evaluated to: " ++ boolStr r) .info none, .ok r)

/-- `executeOperatorNode`: a missing config logs a warning and yields
`null`; otherwise run the operator (throws propagate) and store the result
in the output variable when one is configured (truthy, so not `""`). -/
def executeOperatorNode (H : Host) (node : Node) (st : EngineState) :
    EngineState × Except String Value :=
  match node.data.operatorConfig with
  | none => (logE st node.id "No operator configuration found" .warning none, .ok .null)
  | some cfg =>
    match executeOperator H cfg st.«variables» with
    | .error e => (st, .error e)
    | .ok r =>
      let st :=
        match cfg.output with
        | some o =>
          if o.toList.isEmpty then st
          else { st with «variables» := st.«variables».set o r }
        | none => st
      (st, .ok r)

/-- The `switch (node.type)` of `executeNode`: the five known types
dispatch to their handlers; anything else logs a warning and produces
`null`. -/
def dispatchNode (H : Host) (node : Node) (st : EngineState) :
    EngineState × Except String Value :=
  match node.type with
  | "trigger" =>
    let p := executeTrigger H node st
    (p.1, .ok p.2)
  | "action" =>
    let p := executeAction H node st
    (p.1, .ok p.2)
  | "condition" =>
    let p := executeConditionNode H node st
    (p.1, p.2.map .bool)
  | "boolean" =>
    let p := executeBooleanNode H node st
    (p.1, p.2.map .bool)
  | "operator" => executeOperatorNode H node st
  | t => (logE st node.id ("Unknown node type: " ++ t) .warning none, .ok .null)

/-- The result store of `executeNode`: the node's result is written to
`context.results[node.id]` **and** to `context.variables[node.data.label]`,
for every node type. -/
def storeResult (st : EngineState) (node : Node) (result : Value) : EngineState :=
  { st with
    results := st.results.set node.id result,
    «variables» := st.«variables».set node.data.label result }

/-- The `shouldExecute` computation of `executeNextNodes`: for a
`condition`/`boolean` source node, an edge is suppressed when its label is
`"true"` and the result falsy, or `"false"` and the result truthy — all
other edges (unlabeled or otherwise-labeled ones included) fire; for every
other node type, every edge fires. -/
def edgeFires (node : Node) (edge : Edge) (result : Value) : Bool :=
  if node.type == "condition" || node.type == "boolean" then
    if edge.label == some "true" && !truthy result then false
    else if edge.label == some "false" && truthy result then false
    else true
  else true

/-- `this.nodes.find(n => n.id === edge.target)`. -/
def findNode (nodes : List Node) (id : String) : Option Node :=
  nodes.find? (fun n => n.id == id)

/-- The `for (const edge of outgoingEdges)` loop of `executeNextNodes`,
parametrized by the function that executes one target node (the engine
instantiates it with `executeNode` at the remaining recursion depth): fire
the edges in list order, executing each found target to completion before
the next sibling; a thrown error (or fuel exhaustion, `none`) aborts the
loop and propagates. -/
def execEdgesWith (nodes : List Node)
    (exec1 : EngineState → Node → Option (EngineState × Except String Value)) :
    EngineState → List Edge → Node → Value →
    Option (EngineState × Except String Unit)
  | st, [], _, _ => some (st, .ok ())
  | st, e :: rest, node, result =>
    if edgeFires node e result then
      match findNode nodes e.target with
      | some next =>
        match exec1 st next with
        | none => none
        | some (st', .error err) => some (st', .error err)
        | some (st', .ok _) => execEdgesWith nodes exec1 st' rest node result
      | none => execEdgesWith nodes exec1 st rest node result
    else execEdgesWith nodes exec1 st rest node result

/-- `executeNode`, with explicit fuel bounding the recursion depth (`none`
means the fuel ran out mid-recursion).  The entry log, dispatch, result
store, completion log and recursive descent mirror the source line by
line; the `try/catch` logs a node-level error entry and rethrows. -/
def executeNode (H : Host) (nodes : List Node) (edges : List Edge) :
    Nat → EngineState → Node → Option (EngineState × Except String Value)
  | 0, _, _ => none
  | fuel + 1, st, node =>
    let st := logE st node.id ("Executing node: " ++ node.data.label) .info none
    match dispatchNode H node st with
    | (st₁, .error e) =>
      some (logE st₁ node.id ("Error executing node: " ++ e) .error none, .error e)
    | (st₁, .ok result) =>
      let st₂ := storeResult st₁ node result
      let st₃ := logE st₂ node.id
        ("Node completed with result: " ++ H.stringifyJSON result) .info (some result)
      match execEdgesWith nodes (executeNode H nodes edges fuel) st₃
          (edges.filter (fun e => e.source == node.id)) node result with
      | none => none
      | some (st₄, .error e) =>
        some (logE st₄ node.id ("Error executing node: " ++ e) .error none, .error e)
      | some (st₄, .ok _) => some (st₄, .ok result)

/-- The trigger discovery of `execute()`: the nodes no edge targets, in
node-list order (`filter` preserves order). -/
def discoverTriggers (nodes : List Node) (edges : List Edge) : List Node :=
  nodes.filter (fun node => !edges.any (fun edge => edge.target == node.id))

/-- The `for (const trigger of triggerNodes)` loop of `execute()`. -/
def runTriggers (H : Host) (nodes : List Node) (edges : List Edge) :
    Nat → EngineState → List Node → Option (EngineState × Except String Unit)
  | _, st, [] => some (st, .ok ())
  | fuel, st, t :: rest =>
    match executeNode H nodes edges fuel st t with
    | none => none
    | some (st', .error e) => some (st', .error e)
    | some (st', .ok _) => runTriggers H nodes edges fuel st' rest

/-- `execute()`: log the start, discover triggers, throw
`"Workflow must have at least one trigger node"` when there are none (after
an error-level log), otherwise run each trigger in order and log
completion.  There is no `try/catch` here: a throw from the recursion
rejects the returned promise, modelled as `Except.error`. -/
def execute (H : Host) (nodes : List Node) (edges : List Edge) (fuel : Nat) :
    Option (EngineState × Except String Unit) :=
  let st := logE initialState "workflow" "Starting workflow execution" .info none
  let triggerNodes := discoverTriggers nodes edges
  if triggerNodes.isEmpty then
    some (logE st "workflow" "No trigger nodes found" .error none,
      .error "Workflow must have at least one trigger node")
  else
    match runTriggers H nodes edges fuel st triggerNodes with
    | none => none
    | some (st', .error e) => some (st', .error e)
    | some (st', .ok _) =>
      some (logE st' "workflow" "Workflow execution completed" .info none, .ok ())

/-! ## Observables, specification-side definitions, and concrete graphs -/

/-- A host whose primitives are all constant — enough to run any workflow
that does not consult dates, regexes, `Math.random` or non-integer
formatting. -/
def trivialHost : Host where
  nowMs := 0
  randomSample := 0
  sqrtQ := fun _ => 0
  powFrac := fun _ _ => .nan
  fracToString := fun _ => ""
  dateToString := fun _ => ""
  localeString := fun _ _ => ""
  isoString := fun _ => ""
  parseDateMs := fun _ => none
  addDaysMs := fun _ _ => none
  getDayMs := fun _ => 0
  getMonthMs := fun _ => 0
  getYearMs := fun _ => 0
  getHourMs := fun _ => 0
  getMinuteMs := fun _ => 0
  regexTest := fun _ _ => .ok false
  stringifyJSON := fun _ => ""

/-- Does a log message mark the start of a node execution?  `executeNode`
emits exactly one `"Executing node: …"` entry per invocation, and no other
log site produces a message with this prefix. -/
def isExecMsg (m : String) : Bool :=
  listStarts m.toList ("Executing node: ".toList)

/-- The node ids of the `"Executing node"` entries of a trace, in order:
one occurrence per `executeNode` invocation. -/
def execIds (trace : List LogEntry) : List String :=
  (trace.filter (fun e => isExecMsg e.message)).map (fun e => e.nodeId)

/-- Traversal of the targets of a list of edges, left to right,
parametrized by the single-node traversal. -/
def dfsEdgeListWith (nodes : List Node) (dfs1 : Node → Option (List String)) :
    List Edge → Option (List String)
  | [] => some []
  | e :: rest =>
    match findNode nodes e.target with
    | some next =>
      match dfs1 next with
      | none => none
      | some l₁ => (dfsEdgeListWith nodes dfs1 rest).map (fun l₂ => l₁ ++ l₂)
    | none => dfsEdgeListWith nodes dfs1 rest

/-- The depth-first, edge-order traversal the engine performs from a node
when no edge is suppressed: the node itself, then — for each outgoing edge
in edge-list order — the full traversal of the resolved target.  Fuel
mirrors `executeNode`'s recursion depth exactly. -/
def dfsNodes (nodes : List Node) (edges : List Edge) : Nat → Node → Option (List String)
  | 0, _ => none
  | fuel + 1, node =>
    match dfsEdgeListWith nodes (dfsNodes nodes edges fuel)
        (edges.filter (fun e => e.source == node.id)) with
    | none => none
    | some l => some (node.id :: l)

/-- Reachability along resolvable edges: `Reach nodes edges a b` holds when
the node with id `b` can be reached from id `a` by following edges whose
targets resolve in the node list. -/
inductive Reach (nodes : List Node) (edges : List Edge) : String → String → Prop where
  | refl (id : String) : Reach nodes edges id id
  | step {a b : String} {e : Edge} {m : Node} :
    Reach nodes edges a b → e ∈ edges → e.source = b →
    findNode nodes e.target = some m → Reach nodes edges a m.id

/-- A payload with only a label. -/
def mkData (label : String) : NodeData :=
  { label := label, config := none, operatorConfig := none,
    booleanExpression := none, condition := none, actionType := none,
    actionConfig := none }

/-- A node with an empty payload. -/
def mkNode (id type label : String) : Node :=
  { id := id, type := type, data := mkData label }

/-- An unlabeled edge. -/
def mkEdge (id source target : String) : Edge :=
  { id := id, source := source, target := target, label := none }

/-- Diamond graph: trigger `T` fans out to `B` and `C`, both of which lead
to `D`.  `D` is reachable from the single trigger along two paths. -/
def diamondNodes : List Node :=
  [mkNode "T" "trigger" "T", mkNode "B" "task" "B",
    mkNode "C" "task" "C", mkNode "D" "task" "D"]

/-- The diamond's edges, in source-grouped order. -/
def diamondEdges : List Edge :=
  [mkEdge "e1" "T" "B", mkEdge "e2" "T" "C",
    mkEdge "e3" "B" "D", mkEdge "e4" "C" "D"]

/-- The diamond run (ample fuel). -/
def diamondRun : Option (EngineState × Except String Unit) :=
  execute trivialHost diamondNodes diamondEdges 8

/-- A condition node with no incoming edge (hence the discovered trigger)
and no configured condition, so its result is `false`, with a single
unlabeled outgoing edge to an action-less node `A`. -/
def unlabeledNodes : List Node :=
  [mkNode "C" "condition" "C", mkNode "A" "task" "A"]

/-- The single unlabeled edge out of the condition node. -/
def unlabeledEdges : List Edge :=
  [mkEdge "e1" "C" "A"]

/-- The unlabeled-branch run (ample fuel). -/
def unlabeledRun : Option (EngineState × Except String Unit) :=
  execute trivialHost unlabeledNodes unlabeledEdges 8

/-- A two-node chain `T → A` used as a concrete witness graph. -/
def chainNodes : List Node :=
  [mkNode "T" "trigger" "T", mkNode "A" "task" "A"]

/-- The chain's edge. -/
def chainEdges : List Edge :=
  [mkEdge "e1" "T" "A"]

/-! # Theorems

General lemmas first, then the per-claim theorems with their witnesses and
counterexamples. -/

theorem xorFold_parity (l : List Bool) (b : Bool) :
    l.foldl (fun acc val => acc != val) b = (b != decide (l.count true % 2 = 1)) := by
  induction l generalizing b with
  | nil => cases b <;> simp
  | cons v t ih =>
    rw [List.foldl_cons, ih]
    rcases v with _ | _
    · simp [List.count_cons]
    · have hflip : decide ((t.count true + 1) % 2 = 1) = !decide (t.count true % 2 = 1) := by
        rcases Nat.mod_two_eq_zero_or_one (t.count true) with h | h <;>
          simp [Nat.add_mod, h]
      simp only [List.count_cons, if_pos rfl, hflip]
      cases b <;> cases h : decide (t.count true % 2 = 1) <;> simp_all


/-- Resolution of a string operand with the empty context is the identity:
whether or not it starts with `$`, the lookup misses and the literal comes
back. -/
theorem resolveValue_empty_str (s : String) :
    resolveValue (.str s) VarMap.empty = .str s := by
  simp only [resolveValue, VarMap.empty]
  split <;> rfl

/-- C6: a `$`-prefixed string operand resolves to the context value named
by its suffix when that value is present (not `undefined`); a lookup miss
returns the literal string unchanged (no throw — `resolveValue` is total);
any other operand passes through untouched. -/
theorem c6_variable_resolution (context : VarMap) :
    (∀ s : String, strStarts s "$" = true → (context (strDrop s 1)).isUndefined = false →
      resolveValue (.str s) context = context (strDrop s 1))
    ∧ (∀ s : String, strStarts s "$" = true → (context (strDrop s 1)).isUndefined = true →
      resolveValue (.str s) context = .str s)
    ∧ (∀ v : Value, (∀ s : String, v = .str s → strStarts s "$" = false) →
      resolveValue v context = v) := by
  refine ⟨?_, ?_, ?_⟩
  · intro s h₁ h₂
    cases hc : context (strDrop s 1) <;>
      simp_all [resolveValue, Value.isUndefined]
  · intro s h₁ h₂
    cases hc : context (strDrop s 1) <;>
      simp_all [resolveValue, Value.isUndefined]
  · intro v h
    cases v with
    | str s => simp [resolveValue, h s rfl]
    | _ => rfl

/-- A sample context for the C6 witness. -/
def c6ctx : VarMap := VarMap.empty.set "x" (.num (.fin 10))

/-- Witness for C6 at concrete inputs: a hit, a miss, and a non-string. -/
theorem c6_variable_resolution_witness :
    resolveValue (.str "$x") c6ctx = .num (.fin 10)
    ∧ resolveValue (.str "$y") c6ctx = .str "$y"
    ∧ resolveValue (.num (.fin 3)) c6ctx = .num (.fin 3) := by
  refine ⟨?_, ?_, ?_⟩
  · exact ((c6_variable_resolution c6ctx).1 "$x" (by decide) (by decide)).trans rfl
  · exact (c6_variable_resolution c6ctx).2.1 "$y" (by decide) (by decide)
  · exact (c6_variable_resolution c6ctx).2.2 (.num (.fin 3)) (fun s h => by cases h)

/-- C10: for a number and any string whose `Number` coercion is that same
finite number (its decimal representation included), `equals` is false and
`notEquals` true — strict equality never coerces — while `greaterOrEqual`
and `lessOrEqual` both hold because they compare the `Number` coercions of
both sides. -/
theorem c10_strict_vs_ordering (H : Host) (q : ℚ) (s : String)
    (hparse : parseJSNumber s = .fin q) :
    evaluateCondition H ⟨.num (.fin q), "equals", .str s⟩ VarMap.empty = .ok false
    ∧ evaluateCondition H ⟨.num (.fin q), "notEquals", .str s⟩ VarMap.empty = .ok true
    ∧ evaluateCondition H ⟨.num (.fin q), "greaterOrEqual", .str s⟩ VarMap.empty = .ok true
    ∧ evaluateCondition H ⟨.num (.fin q), "lessOrEqual", .str s⟩ VarMap.empty = .ok true := by
  have hL : resolveValue (.num (.fin q)) VarMap.empty = .num (.fin q) := rfl
  have hR := resolveValue_empty_str s
  refine ⟨?_, ?_, ?_, ?_⟩ <;>
    · simp only [evaluateCondition, hL, hR]
      simp [strictEq, JSNum.strictEq, toNumber, hparse, JSNum.ge, JSNum.le]

/-- Witness for C10 at `n = 10`, `s = "10"`. -/
theorem c10_strict_vs_ordering_witness :
    evaluateCondition trivialHost ⟨.num (.fin 10), "equals", .str "10"⟩ VarMap.empty
      = .ok false
    ∧ evaluateCondition trivialHost ⟨.num (.fin 10), "greaterOrEqual", .str "10"⟩
        VarMap.empty = .ok true
    ∧ evaluateCondition trivialHost ⟨.num (.fin 10), "lessOrEqual", .str "10"⟩
        VarMap.empty = .ok true := by
  have hp : parseJSNumber "10"
      = .fin (((10 : ℕ) : ℚ) + ((0 : ℕ) : ℚ) / (10 : ℚ) ^ (0 : ℕ)) := rfl
  have h := c10_strict_vs_ordering trivialHost 10 "10" (by rw [hp]; norm_num)
  exact ⟨h.1, h.2.2.1, h.2.2.2⟩

/-- C4: an `XOR` operator node evaluates to the parity of its children —
true exactly when an odd number of the child expressions evaluate to true —
and in particular `XOR` over three true children is true. -/
theorem c4_xor_parity (H : Host) (l : List BExpr) (context : VarMap) (rs : List Bool)
    (h : evalBEList H l context = .ok rs) :
    evaluateBooleanExpression H (.opNode "XOR" l) context
      = .ok (decide (rs.count true % 2 = 1))
    ∧ evaluateBooleanExpression H
        (.opNode "XOR" [.lit true, .lit true, .lit true]) context = .ok true := by
  constructor
  · simp only [BExpr.opNode, evaluateBooleanExpression, bind, Except.bind, h]
    simp [xorFold_parity]
  · rfl

/-- Witness for C4: the three-true-children instance, with the hypothesis
discharged by computation. -/
theorem c4_xor_parity_witness :
    evaluateBooleanExpression trivialHost
      (.opNode "XOR" [.lit true, .lit true, .lit true]) VarMap.empty = .ok true := by
  have h := c4_xor_parity trivialHost [.lit true, .lit true, .lit true]
    VarMap.empty [true, true, true] rfl
  exact h.2

/-- The C8 inputs object: `a = 10`, `b = 0`. -/
def c8inputs : VarMap := (VarMap.empty.set "a" (.num (.fin 10))).set "b" (.num (.fin 0))

/-- C8: `divide` with `a = 10`, `b = 0` yields `Infinity` (an `ok` number,
not a thrown exception), and every operation in the math category yields an
`ok` number for all inputs whose `values` field, when truthy, is an array
(the one JavaScript `TypeError` path in the math category is spreading a
truthy non-array `values` in `min`/`max`). -/
theorem c8_divide_by_zero (H : Host) (inputs : VarMap)
    (ha : inputs "a" = .num (.fin 10)) (hb : inputs "b" = .num (.fin 0)) :
    executeMathOperation H "divide" inputs = .ok .inf
    ∧ ∀ op ∈ mathOpNames, ∀ ins : VarMap,
        (truthy (ins "values") = true → ∃ vs, ins "values" = .list vs) →
        ∃ v, executeMathOperation H op ins = .ok v := by
  constructor
  · simp [executeMathOperation, ha, hb, toNumber, JSNum.div]
  · intro op hop ins hvals
    have hcases : op = "add" ∨ op = "subtract" ∨ op = "multiply" ∨ op = "divide" ∨
        op = "modulo" ∨ op = "power" ∨ op = "sqrt" ∨ op = "abs" ∨ op = "round" ∨
        op = "floor" ∨ op = "ceil" ∨ op = "min" ∨ op = "max" ∨ op = "random" := by
      simpa [mathOpNames] using hop
    have hmin : op = "min" ∨ op = "max" →
        ∃ v, executeMathOperation H op ins = .ok v := by
      rintro (rfl | rfl) <;>
      · by_cases ht : truthy (ins "values") = true
        · obtain ⟨vs, hvs⟩ := hvals ht
          exact ⟨_, by simp [executeMathOperation, hvs, truthy]; rfl⟩
        · exact ⟨_, by simp [executeMathOperation, ht]; rfl⟩
    rcases hcases with rfl | rfl | rfl | rfl | rfl | rfl | rfl | rfl | rfl | rfl |
        rfl | rfl | rfl | rfl
    case _ => exact ⟨_, rfl⟩
    case _ => exact ⟨_, rfl⟩
    case _ => exact ⟨_, rfl⟩
    case _ => exact ⟨_, rfl⟩
    case _ => exact ⟨_, rfl⟩
    case _ => exact ⟨_, rfl⟩
    case _ => exact ⟨_, rfl⟩
    case _ => exact ⟨_, rfl⟩
    case _ => exact ⟨_, rfl⟩
    case _ => exact ⟨_, rfl⟩
    case _ => exact ⟨_, rfl⟩
    case _ => exact hmin (Or.inl rfl)
    case _ => exact hmin (Or.inr rfl)
    case _ => exact ⟨_, rfl⟩

/-- Witness for C8: the concrete divide-by-zero inputs, plus `sqrt` on the
empty inputs object (whose `values` is `undefined`, hence falsy). -/
theorem c8_divide_by_zero_witness :
    executeMathOperation trivialHost "divide" c8inputs = .ok .inf
    ∧ ∃ v, executeMathOperation trivialHost "sqrt" VarMap.empty = .ok v := by
  have h := c8_divide_by_zero trivialHost c8inputs rfl rfl
  exact ⟨h.1, h.2 "sqrt" (by decide) VarMap.empty (fun hT => absurd hT (by decide))⟩


/-- C2: trigger discovery is exactly the set of nodes no edge targets, kept
in node-list order (a sublist of the node list), and `execute`'s trigger
loop processes that list head first, each trigger run to completion (or to
a propagated error) before the next. -/
theorem c2_trigger_discovery (nodes : List Node) (edges : List Edge) :
    (∀ n : Node, n ∈ discoverTriggers nodes edges ↔
      (n ∈ nodes ∧ ∀ e ∈ edges, e.target ≠ n.id))
    ∧ (discoverTriggers nodes edges).Sublist nodes
    ∧ (∀ (H : Host) (fuel : Nat) (st : EngineState) (t : Node) (rest : List Node),
        runTriggers H nodes edges fuel st (t :: rest) =
          match executeNode H nodes edges fuel st t with
          | none => none
          | some (st', .error e) => some (st', .error e)
          | some (st', .ok _) => runTriggers H nodes edges fuel st' rest) := by
  refine ⟨?_, List.filter_sublist nodes, ?_⟩
  · intro n
    simp only [discoverTriggers, List.mem_filter, Bool.not_eq_true', List.any_eq_false,
      beq_iff_eq]
  · intro H fuel st t rest
    rfl

/-- Witness for C2: in the chain `T → A`, `T` is discovered as a trigger. -/
theorem c2_trigger_discovery_witness :
    mkNode "T" "trigger" "T" ∈ discoverTriggers chainNodes chainEdges := by
  refine ((c2_trigger_discovery chainNodes chainEdges).1 _).mpr
    ⟨List.Mem.head _, ?_⟩
  intro e he
  simp only [chainEdges, List.mem_singleton] at he
  subst he
  decide

/-- Counterexample to C3 as stated: on a graph with no trigger (here the
empty graph), `execute()` does not resolve to a `success: false` result
object — it throws, and the error message is `"Workflow must have at least
one trigger node"`, not `"no trigger node found"`. -/
theorem c3_counterexample :
    (execute trivialHost ([] : List Node) ([] : List Edge) 1).map (fun p => p.2)
      = some (.error "Workflow must have at least one trigger node") := rfl

/-- C3 amended: with an empty discovered trigger set, `execute()` rejects
(throws) with `"Workflow must have at least one trigger node"` after
emitting exactly the start entry and an error-level `"No trigger nodes
found"` entry; no node result is recorded and no node executes. -/
theorem c3_no_trigger (H : Host) (fuel : Nat) (nodes : List Node) (edges : List Edge)
    (h : discoverTriggers nodes edges = []) :
    ∃ st, execute H nodes edges fuel
        = some (st, .error "Workflow must have at least one trigger node")
      ∧ (∀ k, st.results k = Value.undefined)
      ∧ st.emitted = [⟨"workflow", "Starting workflow execution", .info, none⟩,
          ⟨"workflow", "No trigger nodes found", .error, none⟩] := by
  refine ⟨logE (logE initialState "workflow" "Starting workflow execution" .info none)
      "workflow" "No trigger nodes found" .error none, ?_, fun k => rfl, rfl⟩
  simp [execute, h]

/-- Witness for C3 amended: the empty graph. -/
theorem c3_no_trigger_witness :
    ∃ st, execute trivialHost ([] : List Node) ([] : List Edge) 1
        = some (st, .error "Workflow must have at least one trigger node")
      ∧ (∀ k, st.results k = Value.undefined)
      ∧ st.emitted = [⟨"workflow", "Starting workflow execution", .info, none⟩,
          ⟨"workflow", "No trigger nodes found", .error, none⟩] :=
  c3_no_trigger trivialHost 1 [] [] rfl


/-- C7: dispatching a node of unknown type emits a warning-level
`"Unknown node type: …"` entry and produces the result `null`, and
`executeNode` then stores that `null` under the node's id and proceeds to
the node's outgoing edges — it does not abort. -/
theorem c7_unknown_node_type (H : Host) (nodes : List Node) (edges : List Edge)
    (fuel : Nat) (st : EngineState) (node : Node)
    (h : node.type ∉ (["trigger", "action", "condition", "boolean", "operator"] :
      List String)) :
    (∀ st₀ : EngineState, dispatchNode H node st₀ =
      (logE st₀ node.id ("Unknown node type: " ++ node.type) .warning none, .ok .null))
    ∧ ∃ st₂ : EngineState,
        executeNode H nodes edges (fuel + 1) st node =
          (match execEdgesWith nodes (executeNode H nodes edges fuel) st₂
              (edges.filter (fun e => e.source == node.id)) node .null with
            | none => none
            | some (st₄, .error e) =>
              some (logE st₄ node.id ("Error executing node: " ++ e) .error none, .error e)
            | some (st₄, .ok _) => some (st₄, .ok .null))
        ∧ st₂.results node.id = .null
        ∧ (⟨node.id, "Unknown node type: " ++ node.type, .warning, none⟩ : LogEntry)
            ∈ st₂.emitted := by
  simp only [List.mem_cons, List.not_mem_nil, or_false, not_or] at h
  obtain ⟨h₁, h₂, h₃, h₄, h₅⟩ := h
  have hdisp : ∀ st₀ : EngineState, dispatchNode H node st₀ =
      (logE st₀ node.id ("Unknown node type: " ++ node.type) .warning none, .ok .null) := by
    intro st₀
    unfold dispatchNode
    split <;> simp_all
  refine ⟨hdisp, ?_⟩
  refine ⟨logE (storeResult
      (logE (logE st node.id ("Executing node: " ++ node.data.label) .info none)
        node.id ("Unknown node type: " ++ node.type) .warning none) node .null)
      node.id ("Node completed with result: " ++ H.stringifyJSON .null) .info
      (some .null), ?_, ?_, ?_⟩
  · rw [executeNode]
    rw [hdisp (logE st node.id ("Executing node: " ++ node.data.label) .info none)]
  · simp [logE, storeResult, VarMap.set]
  · simp [logE, storeResult]

/-- Witness for C7: a node of type `"task"` in the empty graph. -/
theorem c7_unknown_node_type_witness :
    (∀ st₀ : EngineState, dispatchNode trivialHost (mkNode "X" "task" "X") st₀ =
      (logE st₀ "X" ("Unknown node type: " ++ "task") .warning none, .ok .null))
    ∧ ∃ st₂ : EngineState,
        executeNode trivialHost [] [] 1 initialState (mkNode "X" "task" "X") =
          (match execEdgesWith [] (executeNode trivialHost [] [] 0) st₂
              (([] : List Edge).filter (fun e => e.source == "X"))
              (mkNode "X" "task" "X") .null with
            | none => none
            | some (st₄, .error e) =>
              some (logE st₄ "X" ("Error executing node: " ++ e) .error none, .error e)
            | some (st₄, .ok _) => some (st₄, .ok .null))
        ∧ st₂.results "X" = .null
        ∧ (⟨"X", "Unknown node type: " ++ "task", .warning, none⟩ : LogEntry)
            ∈ st₂.emitted :=
  c7_unknown_node_type trivialHost [] [] 0 initialState (mkNode "X" "task" "X")
    (by decide)

/-- C9: whatever the node's type, as soon as its dispatch produces a result
`r`, `executeNode` proceeds to the node's outgoing edges from a state in
which `context.results[node.id] = r` **and** `context.variables[label] = r`
— the node's result silently overwrites any variable named like the node's
label, for every node type, not only for the explicit variable-writing
actions. -/
theorem c9_result_overwrites_label (H : Host) (nodes : List Node) (edges : List Edge)
    (fuel : Nat) (st : EngineState) (node : Node) (st₁ : EngineState) (result : Value)
    (h : dispatchNode H node
        (logE st node.id ("Executing node: " ++ node.data.label) .info none)
      = (st₁, .ok result)) :
    ∃ st₂ : EngineState,
      executeNode H nodes edges (fuel + 1) st node =
        (match execEdgesWith nodes (executeNode H nodes edges fuel) st₂
            (edges.filter (fun e => e.source == node.id)) node result with
          | none => none
          | some (st₄, .error e) =>
            some (logE st₄ node.id ("Error executing node: " ++ e) .error none, .error e)
          | some (st₄, .ok _) => some (st₄, .ok result))
      ∧ st₂.results node.id = result
      ∧ st₂.«variables» node.data.label = result := by
  refine ⟨logE (storeResult st₁ node result) node.id
      ("Node completed with result: " ++ H.stringifyJSON result) .info (some result),
    ?_, ?_, ?_⟩
  · rw [executeNode, h]
  · simp [logE, storeResult, VarMap.set]
  · simp [logE, storeResult, VarMap.set]

/-- Witness for C9: a trigger node dispatches to its `triggered` marker
object, which lands in `results["Y"]` and `variables["L"]`. -/
theorem c9_result_overwrites_label_witness :
    ∃ st₂ : EngineState,
      executeNode trivialHost [] [] 1 initialState (mkNode "Y" "trigger" "L") =
        (match execEdgesWith [] (executeNode trivialHost [] [] 0) st₂
            (([] : List Edge).filter (fun e => e.source == "Y"))
            (mkNode "Y" "trigger" "L")
            (.obj [("triggered", .bool true), ("timestamp", .date 0)]) with
          | none => none
          | some (st₄, .error e) =>
            some (logE st₄ "Y" ("Error executing node: " ++ e) .error none, .error e)
          | some (st₄, .ok _) =>
            some (st₄, .ok (.obj [("triggered", .bool true), ("timestamp", .date 0)])))
      ∧ st₂.results "Y" = .obj [("triggered", .bool true), ("timestamp", .date 0)]
      ∧ st₂.«variables» "L" = .obj [("triggered", .bool true), ("timestamp", .date 0)] :=
  c9_result_overwrites_label trivialHost [] [] 0 initialState (mkNode "Y" "trigger" "L")
    _ (.obj [("triggered", .bool true), ("timestamp", .date 0)]) rfl


/-- Counterexample to C1 as stated: an outgoing edge of a condition node
whose label is absent *does* fire.  At the router level `shouldExecute`
stays true for the unlabeled edge of a condition node with a false result,
and in the concrete two-node run the target `A` of such an edge executes
(its `"Executing node"` entry appears once and the run completes). -/
theorem c1_counterexample :
    edgeFires (mkNode "C" "condition" "C") (mkEdge "e1" "C" "A") (.bool false) = true
    ∧ unlabeledRun.map (fun p => ((execIds p.1.emitted).count "A", p.2.isOk))
      = some (1, true) := by
  constructor
  · decide
  · decide

/-- C1 amended: for a `condition`/`boolean` node an outgoing edge is
suppressed exactly when its label is `"true"` and the result falsy, or
`"false"` and the result truthy; edges with an absent or any other label
always fire, and for every other node type every edge fires. -/
theorem c1_branch_router (node : Node) (edge : Edge) (r : Value) :
    (node.type = "condition" ∨ node.type = "boolean" →
      (edgeFires node edge r = false ↔
        (edge.label = some "true" ∧ truthy r = false) ∨
        (edge.label = some "false" ∧ truthy r = true)))
    ∧ (node.type ≠ "condition" → node.type ≠ "boolean" →
      edgeFires node edge r = true) := by
  constructor
  · intro h
    have hb : (node.type == "condition" || node.type == "boolean") = true := by
      rcases h with h | h <;> simp [h]
    simp only [edgeFires, hb, if_pos]
    cases ht : truthy r <;>
      by_cases h1 : edge.label = some "true" <;>
      by_cases h2 : edge.label = some "false" <;>
      simp_all
  · intro h1 h2
    have hb : (node.type == "condition" || node.type == "boolean") = false := by
      simp [h1, h2]
    simp [edgeFires, hb]

/-- Witness for C1 amended: a `"true"`-labeled edge of a boolean node with
a false result is suppressed. -/
theorem c1_branch_router_witness :
    edgeFires (mkNode "B" "boolean" "B")
      { id := "e", source := "B", target := "A", label := some "true" }
      (.bool false) = false :=
  ((c1_branch_router (mkNode "B" "boolean" "B")
      { id := "e", source := "B", target := "A", label := some "true" }
      (.bool false)).1 (Or.inr rfl)).mpr (Or.inl ⟨rfl, rfl⟩)


/-- A prefix check only inspects the first `p.length` characters, so a
suffix appended after them cannot change it. -/
theorem listStarts_append_of_le (p a s : List Char) (h : p.length ≤ a.length) :
    listStarts (a ++ s) p = listStarts a p := by
  induction p generalizing a with
  | nil => cases a <;> simp [listStarts]
  | cons c p ih =>
    cases a with
    | nil => simp at h
    | cons d a' =>
      simp only [List.cons_append, listStarts, List.length_cons] at h ⊢
      rw [List.append_eq, ih a' (by omega)]

/-- A list starts with itself, whatever follows. -/
theorem listStarts_append_self (p rest : List Char) :
    listStarts (p ++ rest) p = true := by
  induction p with
  | nil => simp [listStarts]
  | cons c t ih => simp [listStarts, ih]

/-- A message built from a fixed head at least as long as
`"Executing node: "` that does not itself start with that marker is not an
execution entry, whatever is appended after it. -/
theorem isExecMsg_fixed_append (fixed : String)
    (hlen : ("Executing node: ".toList).length ≤ fixed.toList.length)
    (hne : listStarts fixed.toList "Executing node: ".toList = false) (s : String) :
    isExecMsg (fixed ++ s) = false := by
  have hdata : (fixed ++ s).toList = fixed.toList ++ s.toList := String.data_append fixed s
  rw [isExecMsg, hdata, listStarts_append_of_le _ _ _ hlen, hne]

/-- The entry `executeNode` logs on entry is an execution entry. -/
theorem isExecMsg_exec (label : String) :
    isExecMsg ("Executing node: " ++ label) = true := by
  have hdata : ("Executing node: " ++ label).toList
      = "Executing node: ".toList ++ label.toList := String.data_append _ _
  rw [isExecMsg, hdata, listStarts_append_self]

/-- `execIds` distributes over trace concatenation. -/
theorem execIds_append (a b : List LogEntry) :
    execIds (a ++ b) = execIds a ++ execIds b := by
  simp [execIds, List.filter_append]

/-- Logging a non-execution message leaves the execution trace unchanged. -/
theorem execIds_logE_nonExec (st : EngineState) (id msg : String) (lvl : LogLevel)
    (d : Option Value) (h : isExecMsg msg = false) :
    execIds (logE st id msg lvl d).emitted = execIds st.emitted := by
  simp [logE, execIds_append, execIds, h]

/-- Logging the `"Executing node: …"` entry appends exactly the node id. -/
theorem execIds_logE_exec (st : EngineState) (id label : String) (lvl : LogLevel)
    (d : Option Value) :
    execIds (logE st id ("Executing node: " ++ label) lvl d).emitted
      = execIds st.emitted ++ [id] := by
  simp [logE, execIds_append, execIds, isExecMsg_exec]

/-- No log site inside `dispatchNode` (handlers included) emits an
execution entry: the execution trace after dispatch equals the one
before. -/
theorem dispatchNode_execIds (H : Host) (node : Node) (st : EngineState) :
    execIds (dispatchNode H node st).1.emitted = execIds st.emitted := by
  have hact : ∀ s : String, isExecMsg ("Executing action: " ++ s) = false :=
    isExecMsg_fixed_append "Executing action: " (by decide) (by decide)
  have hcond : ∀ s : String, isExecMsg ("Condition evaluated to: " ++ s) = false :=
    isExecMsg_fixed_append "Condition evaluated to: " (by decide) (by decide)
  have hbool : ∀ s : String, isExecMsg ("Boolean expression evaluated to: " ++ s) = false :=
    isExecMsg_fixed_append "Boolean expression evaluated to: " (by decide) (by decide)
  have hunk : ∀ s : String, isExecMsg ("Unknown node type: " ++ s) = false :=
    isExecMsg_fixed_append "Unknown node type: " (by decide) (by decide)
  have h1 : isExecMsg "No condition configured" = false := by decide
  have h2 : isExecMsg "No boolean expression configured" = false := by decide
  have h3 : isExecMsg "No operator configuration found" = false := by decide
  have h4 : isExecMsg "Executing action: undefined" = false := hact "undefined"
  unfold dispatchNode executeTrigger executeAction executeConditionNode
    executeBooleanNode executeOperatorNode
  split <;> dsimp only <;> (repeat' split) <;>
    simp [logE, execIds_append, execIds, hact, hcond, hbool, hunk, h1, h2, h3, h4]

/-- For a non-`condition`, non-`boolean` source node, every outgoing edge
fires. -/
theorem edgeFires_of_nonbranching (node : Node) (e : Edge) (r : Value)
    (h1 : node.type ≠ "condition") (h2 : node.type ≠ "boolean") :
    edgeFires node e r = true := by
  simp [edgeFires, h1, h2]


/-- The edge loop, run from a non-branching source with a node-level
executor whose completed runs produce exactly a DFS visit list, itself
produces the concatenated DFS visit lists of the targets, in edge order. -/
theorem execEdgesWith_trace (nodes : List Node)
    (dfs1 : Node → Option (List String))
    (exec1 : EngineState → Node → Option (EngineState × Except String Value))
    (hcorr : ∀ (st : EngineState) (node : Node) (st' : EngineState) (r : Value),
      node ∈ nodes → exec1 st node = some (st', .ok r) →
      ∃ l, dfs1 node = some l ∧ execIds st'.emitted = execIds st.emitted ++ l) :
    ∀ (el : List Edge) (st : EngineState) (node : Node) (result : Value)
      (st' : EngineState),
      node.type ≠ "condition" → node.type ≠ "boolean" →
      execEdgesWith nodes exec1 st el node result = some (st', .ok ()) →
      ∃ l, dfsEdgeListWith nodes dfs1 el = some l ∧
        execIds st'.emitted = execIds st.emitted ++ l := by
  intro el
  induction el with
  | nil =>
    intro st node result st' _ _ hrun
    simp only [execEdgesWith, Option.some.injEq, Prod.mk.injEq] at hrun
    obtain ⟨rfl, -⟩ := hrun
    exact ⟨[], rfl, by simp⟩
  | cons e rest ih =>
    intro st node result st' h1 h2 hrun
    simp only [execEdgesWith, edgeFires_of_nonbranching node e result h1 h2,
      if_true] at hrun
    cases hfind : findNode nodes e.target with
    | none =>
      rw [hfind] at hrun
      obtain ⟨l, hdfs, htr⟩ := ih st node result st' h1 h2 hrun
      refine ⟨l, ?_, htr⟩
      simp [dfsEdgeListWith, hfind, hdfs]
    | some next =>
      rw [hfind] at hrun
      dsimp only at hrun
      rcases hx : exec1 st next with _ | ⟨stm, res⟩
      · rw [hx] at hrun
        exact Option.noConfusion hrun
      · rw [hx] at hrun
        cases res with
        | error err => simp at hrun
        | ok r =>
          dsimp only at hrun
          obtain ⟨l₂, hdfs₂, htr₂⟩ := ih stm node result st' h1 h2 hrun
          obtain ⟨l₁, hdfs₁, htr₁⟩ :=
            hcorr st next stm r (List.mem_of_find?_eq_some hfind) hx
          refine ⟨l₁ ++ l₂, ?_, ?_⟩
          · simp [dfsEdgeListWith, hfind, hdfs₁, hdfs₂]
          · rw [htr₂, htr₁, List.append_assoc]

/-- In a graph with no `condition` and no `boolean` nodes, a completed
(`ok`) `executeNode` run appends to the execution trace exactly the
depth-first, edge-order visit list `dfsNodes` computes — the engine
executes the nodes in DFS preorder, once per visit. -/
theorem executeNode_trace (H : Host) (nodes : List Node) (edges : List Edge)
    (hg : ∀ n ∈ nodes, n.type ≠ "condition" ∧ n.type ≠ "boolean") :
    ∀ (fuel : Nat) (st : EngineState) (node : Node) (st' : EngineState) (r : Value),
      node ∈ nodes →
      executeNode H nodes edges fuel st node = some (st', .ok r) →
      ∃ l, dfsNodes nodes edges fuel node = some l ∧
        execIds st'.emitted = execIds st.emitted ++ l := by
  have hcompl : ∀ s : String, isExecMsg ("Node completed with result: " ++ s) = false :=
    isExecMsg_fixed_append "Node completed with result: " (by decide) (by decide)
  intro fuel
  induction fuel with
  | zero =>
    intro st node st' r _ hrun
    exact Option.noConfusion hrun
  | succ n ih =>
    intro st node st' r hmem hrun
    simp only [executeNode] at hrun
    rcases hd : dispatchNode H node
        (logE st node.id ("Executing node: " ++ node.data.label) .info none)
      with ⟨st₁, res⟩
    rw [hd] at hrun
    cases res with
    | error e =>
      dsimp only at hrun
      simp at hrun
    | ok result =>
      dsimp only at hrun
      split at hrun
      · exact Option.noConfusion hrun
      · simp at hrun
      · rename_i st₄ u heq₂
        obtain ⟨rfl, rfl⟩ : st₄ = st' ∧ result = r := by
          simpa using hrun
        obtain ⟨l, hdfsE, htrE⟩ := execEdgesWith_trace nodes
          (dfsNodes nodes edges n) (executeNode H nodes edges n)
          (fun st node st' r hm hx => ih st node st' r hm hx)
          _ _ _ _ _ (hg node hmem).1 (hg node hmem).2 heq₂
        refine ⟨node.id :: l, ?_, ?_⟩
        · simp [dfsNodes, hdfsE]
        · rw [htrE, execIds_logE_nonExec _ _ _ _ _ (hcompl _)]
          have hsr : execIds (storeResult st₁ node result).emitted
              = execIds st₁.emitted := rfl
          rw [hsr]
          have hdp := dispatchNode_execIds H node
            (logE st node.id ("Executing node: " ++ node.data.label) .info none)
          rw [hd] at hdp
          simp only at hdp
          rw [hdp, execIds_logE_exec]
          simp


/-- The edge-list traversal is closed under successors: every id it visits
has all its resolvable successors visited too, and the targets of the
listed edges themselves are visited. -/
theorem dfsEdgeListWith_closed (nodes : List Node) (edges : List Edge)
    (dfs1 : Node → Option (List String))
    (hcorr : ∀ (node : Node) (l : List String), dfs1 node = some l →
      node.id ∈ l ∧ (∀ b ∈ l, ∀ e ∈ edges, e.source = b →
        ∀ m, findNode nodes e.target = some m → m.id ∈ l)) :
    ∀ (el : List Edge) (l : List String),
      dfsEdgeListWith nodes dfs1 el = some l →
      (∀ b ∈ l, ∀ e ∈ edges, e.source = b →
        ∀ m, findNode nodes e.target = some m → m.id ∈ l)
      ∧ (∀ e ∈ el, ∀ m, findNode nodes e.target = some m → m.id ∈ l) := by
  intro el
  induction el with
  | nil =>
    intro l h
    simp only [dfsEdgeListWith, Option.some.injEq] at h
    subst h
    exact ⟨by simp, by simp⟩
  | cons e rest ih =>
    intro l h
    simp only [dfsEdgeListWith] at h
    cases hfind : findNode nodes e.target with
    | none =>
      rw [hfind] at h
      obtain ⟨hcl, hel⟩ := ih l h
      refine ⟨hcl, ?_⟩
      intro e' he' m hm
      rcases List.mem_cons.mp he' with rfl | htl
      · rw [hfind] at hm
        cases hm
      · exact hel e' htl m hm
    | some next =>
      rw [hfind] at h
      dsimp only at h
      rcases hx : dfs1 next with _ | l₁
      · rw [hx] at h
        cases h
      · rw [hx] at h
        cases hrest : dfsEdgeListWith nodes dfs1 rest with
        | none =>
          rw [hrest] at h
          cases h
        | some l₂ =>
          rw [hrest] at h
          simp only [Option.map_some', Option.some.injEq] at h
          subst h
          obtain ⟨hn1, hc1⟩ := hcorr next l₁ hx
          obtain ⟨hc2, hel2⟩ := ih l₂ hrest
          constructor
          · intro b hb e' he' hsrc m hm
            rcases List.mem_append.mp hb with hb1 | hb2
            · exact List.mem_append.mpr (Or.inl (hc1 b hb1 e' he' hsrc m hm))
            · exact List.mem_append.mpr (Or.inr (hc2 b hb2 e' he' hsrc m hm))
          · intro e' he' m hm
            rcases List.mem_cons.mp he' with rfl | htl
            · rw [hfind] at hm
              injection hm with hm'
              subst hm'
              exact List.mem_append.mpr (Or.inl hn1)
            · exact List.mem_append.mpr (Or.inr (hel2 e' htl m hm))

/-- A completed DFS visit list contains its start node and is closed under
following resolvable edges out of any visited id. -/
theorem dfs_closed (nodes : List Node) (edges : List Edge) :
    ∀ (fuel : Nat) (node : Node) (l : List String),
      dfsNodes nodes edges fuel node = some l →
      node.id ∈ l ∧
      (∀ b ∈ l, ∀ e ∈ edges, e.source = b →
        ∀ m, findNode nodes e.target = some m → m.id ∈ l) := by
  intro fuel
  induction fuel with
  | zero =>
    intro node l h
    exact Option.noConfusion h
  | succ n ih =>
    intro node l h
    simp only [dfsNodes] at h
    cases hE : dfsEdgeListWith nodes (dfsNodes nodes edges n)
        (edges.filter (fun e => e.source == node.id)) with
    | none =>
      rw [hE] at h
      cases h
    | some l' =>
      rw [hE] at h
      simp only [Option.some.injEq] at h
      subst h
      have hcorr : ∀ (nd : Node) (ll : List String), dfsNodes nodes edges n nd = some ll →
          nd.id ∈ ll ∧ (∀ b ∈ ll, ∀ e ∈ edges, e.source = b →
            ∀ m, findNode nodes e.target = some m → m.id ∈ ll) :=
        fun nd ll hh => ih nd ll hh
      obtain ⟨hcl, hel⟩ := dfsEdgeListWith_closed nodes edges
        (dfsNodes nodes edges n) hcorr _ _ hE
      constructor
      · exact List.mem_cons_self _ _
      · intro b hb e he hsrc m hm
        rcases List.mem_cons.mp hb with rfl | hb'
        · have hef : e ∈ edges.filter (fun e => e.source == node.id) :=
            List.mem_filter.mpr ⟨he, by simp [hsrc]⟩
          exact List.mem_cons.mpr (Or.inr (hel e hef m hm))
        · exact List.mem_cons.mpr (Or.inr (hcl b hb' e he hsrc m hm))

/-- Every id reachable from the start of a completed DFS appears in its
visit list. -/
theorem reach_mem_dfs (nodes : List Node) (edges : List Edge) (fuel : Nat)
    (start : Node) (l : List String)
    (h : dfsNodes nodes edges fuel start = some l) :
    ∀ id, Reach nodes edges start.id id → id ∈ l := by
  obtain ⟨hstart, hclosed⟩ := dfs_closed nodes edges fuel start l h
  intro id hr
  induction hr with
  | refl => exact hstart
  | step hr he hsrc hfind ih => exact hclosed _ ih _ he hsrc _ hfind

/-- Counterexample to C5 as stated: in the diamond graph (one trigger `T`,
only non-branching nodes), `D` is reachable from the trigger but the
completed run executes it twice, not exactly once — the engine re-executes
a node once per incoming path. -/
theorem c5_counterexample :
    diamondRun.map (fun p => ((execIds p.1.emitted).count "D", p.2.isOk))
      = some (2, true)
    ∧ Reach diamondNodes diamondEdges "T" "D" := by
  constructor
  · decide
  · have hB : findNode diamondNodes (mkEdge "e1" "T" "B").target
        = some (mkNode "B" "task" "B") := rfl
    have hD : findNode diamondNodes (mkEdge "e3" "B" "D").target
        = some (mkNode "D" "task" "D") := rfl
    exact Reach.step (m := mkNode "D" "task" "D")
      (Reach.step (m := mkNode "B" "task" "B") (Reach.refl "T")
        (List.Mem.head _) rfl hB)
      (List.Mem.tail _ (List.Mem.tail _ (List.Mem.head _))) rfl hD

/-- C5 amended: in a graph whose nodes are none of type `condition` or
`boolean`, with exactly one discovered trigger, a completed run's execution
trace is exactly the depth-first, edge-order traversal from the trigger
(`dfsNodes`): nodes execute in DFS preorder, once per traversal visit, and
every node id reachable from the trigger appears in the trace (at least
once; a node with several incoming paths appears once per path, as the
diamond counterexample shows). -/
theorem c5_dfs_execution (H : Host) (nodes : List Node) (edges : List Edge)
    (fuel : Nat) (trigger : Node) (st' : EngineState)
    (hg : ∀ n ∈ nodes, n.type ≠ "condition" ∧ n.type ≠ "boolean")
    (htrig : discoverTriggers nodes edges = [trigger])
    (hrun : execute H nodes edges fuel = some (st', .ok ())) :
    ∃ l, dfsNodes nodes edges fuel trigger = some l
      ∧ execIds st'.emitted = l
      ∧ ∀ id, Reach nodes edges trigger.id id → id ∈ l := by
  have hmem : trigger ∈ nodes := by
    have hmem' : trigger ∈ discoverTriggers nodes edges := by
      rw [htrig]
      exact List.Mem.head _
    exact List.mem_of_mem_filter hmem'
  simp only [execute, htrig, List.isEmpty_cons, Bool.false_eq_true, if_false,
    runTriggers] at hrun
  rcases hx : executeNode H nodes edges fuel
      (logE initialState "workflow" "Starting workflow execution" .info none) trigger
    with _ | ⟨st₁, res⟩
  · rw [hx] at hrun
    cases hrun
  · rw [hx] at hrun
    cases res with
    | error e =>
      dsimp only at hrun
      simp at hrun
    | ok v =>
      dsimp only at hrun
      have hst : logE st₁ "workflow" "Workflow execution completed" .info none = st' := by
        simpa using hrun
      obtain ⟨l, hdfs, htr⟩ := executeNode_trace H nodes edges hg fuel _ trigger st₁ v
        hmem hx
      refine ⟨l, hdfs, ?_, reach_mem_dfs nodes edges fuel trigger l hdfs⟩
      rw [← hst, execIds_logE_nonExec _ _ _ _ _ (by decide), htr,
        execIds_logE_nonExec _ _ _ _ _ (by decide)]
      simp [initialState, execIds]

/-- Witness for C5 amended: the two-node chain `T → A` runs to completion
and its trace is the DFS visit list `["T", "A"]`. -/
theorem c5_dfs_execution_witness :
    ∃ (st' : EngineState) (l : List String),
      execute trivialHost chainNodes chainEdges 3 = some (st', .ok ())
      ∧ dfsNodes chainNodes chainEdges 3 (mkNode "T" "trigger" "T") = some l
      ∧ execIds st'.emitted = l
      ∧ ∀ id, Reach chainNodes chainEdges "T" id → id ∈ l := by
  obtain ⟨st', hrun⟩ : ∃ st',
      execute trivialHost chainNodes chainEdges 3 = some (st', .ok ()) := ⟨_, rfl⟩
  obtain ⟨l, h1, h2, h3⟩ := c5_dfs_execution trivialHost chainNodes chainEdges 3
    (mkNode "T" "trigger" "T") st' (by decide) rfl hrun
  exact ⟨st', l, hrun, h1, h2, h3⟩

end WorkflowSpec
